import Mathlib

/-!
Verification of the text patcher script at
src/Java/SignatureGenerator/fix_encoding.py.

The script reads one hardcoded file, performs two literal string
substitutions (Python str.replace) and writes the result back, then
prints a confirmation line.  We embed the file content as a list of
characters, the substitution as a greedy left-to-right non-overlapping
replacement (the semantics of CPython str.replace for a non-empty
pattern, which is the only way the script calls it), and the run as a
function on a store mapping paths to optional file contents.
-/

namespace FixEncoding

/-- Python str.replace old new on a string viewed as a list of
characters: scan left to right; at each position, if the (non-empty)
pattern matches, emit the replacement and continue after the matched
block, otherwise keep the character.  For an empty pattern the script
never calls replace, and this model leaves the string unchanged; the
guard also ensures termination. -/
def pyReplace (old new : List Char) (s : List Char) : List Char :=
  match s with
  | [] => []
  | d :: rest =>
    if h : old ≠ [] ∧ old <+: (d :: rest) then
      new ++ pyReplace old new ((d :: rest).drop old.length)
    else
      d :: pyReplace old new rest
termination_by s.length
decreasing_by
· have h1 : 0 < old.length := List.length_pos.mpr h.1
  simp only [List.length_drop, List.length_cons]
  omega
· simp only [List.length_cons]
  omega

/-- Number of non-overlapping occurrences of a (non-empty) pattern,
scanning left to right, the count used by the spec when it speaks of
"occurrences" of a pattern in the content (the semantics of Python
str.count for a non-empty pattern). -/
def countOcc (pat : List Char) (s : List Char) : Nat :=
  match s with
  | [] => 0
  | d :: rest =>
    if h : pat ≠ [] ∧ pat <+: (d :: rest) then
      1 + countOcc pat ((d :: rest).drop pat.length)
    else
      countOcc pat rest
termination_by s.length
decreasing_by
· have h1 : 0 < pat.length := List.length_pos.mpr h.1
  simp only [List.length_drop, List.length_cons]
  omega
· simp only [List.length_cons]
  omega

theorem pyReplace_nil (old new : List Char) : pyReplace old new [] = [] := by
  simp [pyReplace]

theorem pyReplace_cons_pos (old new : List Char) (d : Char) (rest : List Char)
    (hne : old ≠ []) (h : old <+: d :: rest) :
    pyReplace old new (d :: rest) =
      new ++ pyReplace old new ((d :: rest).drop old.length) := by
  rw [pyReplace]
  rw [dif_pos ⟨hne, h⟩]

theorem pyReplace_cons_neg (old new : List Char) (d : Char) (rest : List Char)
    (h : ¬ old <+: d :: rest) :
    pyReplace old new (d :: rest) = d :: pyReplace old new rest := by
  rw [pyReplace]
  rw [dif_neg fun hc => h hc.2]

theorem countOcc_nil (pat : List Char) : countOcc pat [] = 0 := by
  simp [countOcc]

theorem countOcc_cons_pos (pat : List Char) (d : Char) (rest : List Char)
    (hne : pat ≠ []) (h : pat <+: d :: rest) :
    countOcc pat (d :: rest) =
      1 + countOcc pat ((d :: rest).drop pat.length) := by
  rw [countOcc]
  rw [dif_pos ⟨hne, h⟩]

theorem countOcc_cons_neg (pat : List Char) (d : Char) (rest : List Char)
    (h : ¬ pat <+: d :: rest) :
    countOcc pat (d :: rest) = countOcc pat rest := by
  rw [countOcc]
  rw [dif_neg fun hc => h hc.2]

theorem pyReplace_cons (old new : List Char) (d : Char) (rest : List Char) :
    pyReplace old new (d :: rest) =
      if old ≠ [] ∧ old <+: (d :: rest) then
        new ++ pyReplace old new ((d :: rest).drop old.length)
      else
        d :: pyReplace old new rest := by
  by_cases h : old ≠ [] ∧ old <+: (d :: rest)
  · rw [if_pos h, pyReplace_cons_pos _ _ _ _ h.1 h.2]
  · rw [if_neg h, pyReplace]
    rw [dif_neg h]

theorem countOcc_cons (pat : List Char) (d : Char) (rest : List Char) :
    countOcc pat (d :: rest) =
      if pat ≠ [] ∧ pat <+: (d :: rest) then
        1 + countOcc pat ((d :: rest).drop pat.length)
      else
        countOcc pat rest := by
  by_cases h : pat ≠ [] ∧ pat <+: (d :: rest)
  · rw [if_pos h, countOcc_cons_pos _ _ _ h.1 h.2]
  · rw [if_neg h, countOcc]
    rw [dif_neg h]

/-- If two lists are both prefixes of a third and the second is the
shorter, the second is a prefix (an initial segment) of the first. -/
theorem eq_take_of_two_pre {p q u : List Char} (hp : p <+: u) (hq : q <+: u)
    (hle : q.length ≤ p.length) : q = p.take q.length := by
  have e1 := List.prefix_iff_eq_take.mp hq
  have e2 := List.prefix_iff_eq_take.mp hp
  calc q = u.take q.length := e1
    _ = (u.take p.length).take q.length := by
        rw [List.take_take, min_eq_left hle]
    _ = p.take q.length := by rw [← e2]

/-- A pattern headed by a character absent from a block cannot match at
the head of that block followed by anything. -/
theorem not_pre_head_ne {c d : Char} {p t : List Char} (hd : d ≠ c) :
    ¬ (c :: p) <+: (d :: t) := by
  intro hpre
  rw [List.cons_prefix_cons] at hpre
  exact hd hpre.1.symm

theorem pre_append_drop {p t : List Char} (h : p <+: t) :
    p ++ t.drop p.length = t := by
  obtain ⟨u, rfl⟩ := h
  rw [List.drop_left]

/-- Replacement skips over a block that does not contain the pattern's
head character. -/
theorem pyReplace_free_append {c : Char} {p' w : List Char} (new : List Char)
    (hw : c ∉ w) (u : List Char) :
    pyReplace (c :: p') new (w ++ u) = w ++ pyReplace (c :: p') new u := by
  induction w with
  | nil => simp
  | cons d w' ih =>
    simp only [List.mem_cons, not_or] at hw
    rw [List.cons_append,
      pyReplace_cons_neg _ _ _ _ (not_pre_head_ne fun he => hw.1 he.symm),
      ih hw.2, List.cons_append]

/-- Counting skips over a block that does not contain the pattern's
head character. -/
theorem countOcc_free_append {c : Char} {p' w : List Char}
    (hw : c ∉ w) (u : List Char) :
    countOcc (c :: p') (w ++ u) = countOcc (c :: p') u := by
  induction w with
  | nil => simp
  | cons d w' ih =>
    simp only [List.mem_cons, not_or] at hw
    rw [List.cons_append,
      countOcc_cons_neg _ _ _ (not_pre_head_ne fun he => hw.1 he.symm),
      ih hw.2]

theorem pyReplace_head_pos {c : Char} {p' t : List Char} (n : List Char)
    (h : p' <+: t) :
    pyReplace (c :: p') n (c :: t) =
      n ++ pyReplace (c :: p') n (t.drop p'.length) := by
  rw [pyReplace_cons_pos _ _ _ _ (List.cons_ne_nil c p')
    (List.cons_prefix_cons.mpr ⟨rfl, h⟩)]
  rw [List.length_cons, List.drop_succ_cons]

theorem pyReplace_head_neg {c : Char} {p' t : List Char} (n : List Char)
    (h : ¬ p' <+: t) :
    pyReplace (c :: p') n (c :: t) = c :: pyReplace (c :: p') n t := by
  apply pyReplace_cons_neg
  intro hpre
  rw [List.cons_prefix_cons] at hpre
  exact h hpre.2

theorem countOcc_head_pos {c : Char} {p' t : List Char}
    (h : p' <+: t) :
    countOcc (c :: p') (c :: t) =
      1 + countOcc (c :: p') (t.drop p'.length) := by
  rw [countOcc_cons_pos _ _ _ (List.cons_ne_nil c p')
    (List.cons_prefix_cons.mpr ⟨rfl, h⟩)]
  rw [List.length_cons, List.drop_succ_cons]

theorem countOcc_head_neg {c : Char} {p' t : List Char}
    (h : ¬ p' <+: t) :
    countOcc (c :: p') (c :: t) = countOcc (c :: p') t := by
  apply countOcc_cons_neg
  intro hpre
  rw [List.cons_prefix_cons] at hpre
  exact h hpre.2

theorem pyReplace_cons_ne {c d : Char} (p' n : List Char) (t : List Char)
    (hd : d ≠ c) :
    pyReplace (c :: p') n (d :: t) = d :: pyReplace (c :: p') n t :=
  pyReplace_cons_neg _ _ _ _ (not_pre_head_ne hd)

theorem countOcc_cons_ne {c d : Char} (p' : List Char) (t : List Char)
    (hd : d ≠ c) :
    countOcc (c :: p') (d :: t) = countOcc (c :: p') t :=
  countOcc_cons_neg _ _ _ (not_pre_head_ne hd)

/-- Replacing a pattern c :: tail with a replacement c :: tail2 never
changes whether a c-free list is a prefix of the whole string: the
replacement only rewrites text at or after the first c, and it keeps
that c in place. -/
theorem pre_pyReplace_iff {c : Char} {p' n' : List Char} {q : List Char}
    (hq : c ∉ q) (t : List Char) :
    (q <+: pyReplace (c :: p') (c :: n') t) ↔ q <+: t := by
  induction t generalizing q with
  | nil => rw [pyReplace_nil]
  | cons d t' ih =>
    cases q with
    | nil => simp
    | cons e q' =>
      simp only [List.mem_cons, not_or] at hq
      by_cases hdc : d = c
      · subst hdc
        by_cases hm : p' <+: t'
        · rw [pyReplace_head_pos _ hm]
          simp only [List.cons_append, List.cons_prefix_cons]
          constructor
          · rintro ⟨he, -⟩
            exact absurd he.symm hq.1
          · rintro ⟨he, -⟩
            exact absurd he.symm hq.1
        · rw [pyReplace_head_neg _ hm]
          simp only [List.cons_prefix_cons]
          constructor
          · rintro ⟨he, -⟩
            exact absurd he.symm hq.1
          · rintro ⟨he, -⟩
            exact absurd he.symm hq.1
      · rw [pyReplace_cons_ne _ _ _ hdc]
        simp only [List.cons_prefix_cons]
        exact and_congr_right fun _ => ih hq.2

/-- A string containing no occurrence of the pattern is unchanged by
the replacement. -/
theorem pyReplace_of_countOcc_zero (old new : List Char) (t : List Char)
    (h : countOcc old t = 0) : pyReplace old new t = t := by
  induction t with
  | nil => rw [pyReplace_nil]
  | cons d t' ih =>
    by_cases hm : old ≠ [] ∧ old <+: d :: t'
    · rw [countOcc_cons_pos _ _ _ hm.1 hm.2] at h
      omega
    · rw [pyReplace_cons, if_neg hm]
      rw [countOcc_cons, if_neg hm] at h
      rw [ih h]


/-- After replacing every occurrence of a pattern c :: p' with c :: n',
no occurrence of the pattern remains, provided the pattern cannot match
at the start of the replacement (the tails p' and n' are c-free, n' is
at least as long as p' and p' is not a prefix of n'). -/
theorem countOcc_self_pyReplace (c : Char) (p' n' : List Char)
    (hp : c ∉ p') (hn : c ∉ n')
    (hlen : p'.length ≤ n'.length) (hnp : ¬ p' <+: n') (t : List Char) :
    countOcc (c :: p') (pyReplace (c :: p') (c :: n') t) = 0 := by
  match t with
  | [] => rw [pyReplace_nil, countOcc_nil]
  | d :: t' =>
    by_cases hdc : d = c
    · rw [hdc]
      by_cases hm : p' <+: t'
      · rw [pyReplace_head_pos _ hm, List.cons_append]
        have hnot :
            ¬ p' <+: n' ++ pyReplace (c :: p') (c :: n') (t'.drop p'.length) := by
          rw [List.isPrefix_append_of_length hlen]
          exact hnp
        rw [countOcc_head_neg hnot, countOcc_free_append hn]
        exact countOcc_self_pyReplace c p' n' hp hn hlen hnp (t'.drop p'.length)
      · rw [pyReplace_head_neg _ hm]
        have hnot : ¬ p' <+: pyReplace (c :: p') (c :: n') t' := by
          rw [pre_pyReplace_iff hp]
          exact hm
        rw [countOcc_head_neg hnot]
        exact countOcc_self_pyReplace c p' n' hp hn hlen hnp t'
    · rw [pyReplace_cons_ne _ _ _ hdc, countOcc_cons_ne _ _ hdc]
      exact countOcc_self_pyReplace c p' n' hp hn hlen hnp t'
termination_by t.length
decreasing_by
  all_goals simp only [List.length_drop, List.length_cons]
  all_goals omega

/-- Replacing occurrences of c :: p' with c :: n' does not change the
number of occurrences of an unrelated pattern c :: q', provided the two
patterns never match at the same position and q' cannot match at the
start of the replacement. -/
theorem countOcc_other_pyReplace (c : Char) (p' q' n' : List Char)
    (hp : c ∉ p') (hq : c ∉ q') (hn : c ∉ n')
    (hex : ∀ u : List Char, ¬ (p' <+: u ∧ q' <+: u))
    (hqlen : q'.length ≤ n'.length) (hnq : ¬ q' <+: n') (t : List Char) :
    countOcc (c :: q') (pyReplace (c :: p') (c :: n') t) =
      countOcc (c :: q') t := by
  match t with
  | [] => rw [pyReplace_nil]
  | d :: t' =>
    by_cases hdc : d = c
    · rw [hdc]
      by_cases hm : p' <+: t'
      · rw [pyReplace_head_pos _ hm, List.cons_append]
        have hq1 :
            ¬ q' <+: n' ++ pyReplace (c :: p') (c :: n') (t'.drop p'.length) := by
          rw [List.isPrefix_append_of_length hqlen]
          exact hnq
        rw [countOcc_head_neg hq1, countOcc_free_append hn]
        rw [countOcc_other_pyReplace c p' q' n' hp hq hn hex hqlen hnq
          (t'.drop p'.length)]
        have hq2 : ¬ q' <+: t' := fun hc => hex t' ⟨hm, hc⟩
        rw [countOcc_head_neg hq2]
        conv_rhs => rw [← pre_append_drop hm]
        rw [countOcc_free_append hp]
      · rw [pyReplace_head_neg _ hm]
        by_cases hqm : q' <+: t'
        · have hTt : pyReplace (c :: p') (c :: n') t' =
              q' ++ pyReplace (c :: p') (c :: n') (t'.drop q'.length) := by
            conv_lhs => rw [← pre_append_drop hqm]
            exact pyReplace_free_append _ hq _
          have hqm2 : q' <+: pyReplace (c :: p') (c :: n') t' := by
            rw [pre_pyReplace_iff hq]
            exact hqm
          rw [countOcc_head_pos hqm2, hTt, List.drop_left]
          rw [countOcc_other_pyReplace c p' q' n' hp hq hn hex hqlen hnq
            (t'.drop q'.length)]
          rw [countOcc_head_pos hqm]
        · have hqm2 : ¬ q' <+: pyReplace (c :: p') (c :: n') t' := by
            rw [pre_pyReplace_iff hq]
            exact hqm
          rw [countOcc_head_neg hqm2, countOcc_head_neg hqm]
          exact countOcc_other_pyReplace c p' q' n' hp hq hn hex hqlen hnq t'
    · rw [pyReplace_cons_ne _ _ _ hdc, countOcc_cons_ne _ _ hdc,
        countOcc_cons_ne _ _ hdc]
      exact countOcc_other_pyReplace c p' q' n' hp hq hn hex hqlen hnq t'
termination_by t.length
decreasing_by
  all_goals simp only [List.length_drop, List.length_cons]
  all_goals omega

/-- Each replaced occurrence of c :: p' contributes exactly one new
occurrence of the replacement c :: n', and the occurrences of the
replacement already present are preserved. -/
theorem countOcc_new_pyReplace (c : Char) (p' n' : List Char)
    (hp : c ∉ p') (hn : c ∉ n')
    (hex : ∀ u : List Char, ¬ (p' <+: u ∧ n' <+: u)) (t : List Char) :
    countOcc (c :: n') (pyReplace (c :: p') (c :: n') t) =
      countOcc (c :: n') t + countOcc (c :: p') t := by
  match t with
  | [] => rw [pyReplace_nil, countOcc_nil, countOcc_nil]
  | d :: t' =>
    by_cases hdc : d = c
    · rw [hdc]
      by_cases hm : p' <+: t'
      · rw [pyReplace_head_pos _ hm, List.cons_append]
        rw [countOcc_head_pos (List.prefix_append _ _), List.drop_left]
        rw [countOcc_new_pyReplace c p' n' hp hn hex (t'.drop p'.length)]
        have hn2 : ¬ n' <+: t' := fun hc => hex t' ⟨hm, hc⟩
        rw [countOcc_head_neg hn2, countOcc_head_pos hm]
        have e : countOcc (c :: n') t' =
            countOcc (c :: n') (t'.drop p'.length) := by
          conv_lhs => rw [← pre_append_drop hm]
          exact countOcc_free_append hp _
        rw [e]
        omega
      · rw [pyReplace_head_neg _ hm]
        by_cases hnm : n' <+: t'
        · have hTt : pyReplace (c :: p') (c :: n') t' =
              n' ++ pyReplace (c :: p') (c :: n') (t'.drop n'.length) := by
            conv_lhs => rw [← pre_append_drop hnm]
            exact pyReplace_free_append _ hn _
          have hnm2 : n' <+: pyReplace (c :: p') (c :: n') t' := by
            rw [pre_pyReplace_iff hn]
            exact hnm
          rw [countOcc_head_pos hnm2, hTt, List.drop_left]
          rw [countOcc_new_pyReplace c p' n' hp hn hex (t'.drop n'.length)]
          rw [countOcc_head_pos hnm, countOcc_head_neg hm]
          have e : countOcc (c :: p') t' =
              countOcc (c :: p') (t'.drop n'.length) := by
            conv_lhs => rw [← pre_append_drop hnm]
            exact countOcc_free_append hn _
          rw [e]
          omega
        · have hnm2 : ¬ n' <+: pyReplace (c :: p') (c :: n') t' := by
            rw [pre_pyReplace_iff hn]
            exact hnm
          rw [countOcc_head_neg hnm2, countOcc_head_neg hnm,
            countOcc_head_neg hm]
          exact countOcc_new_pyReplace c p' n' hp hn hex t'
    · rw [pyReplace_cons_ne _ _ _ hdc, countOcc_cons_ne _ _ hdc,
        countOcc_cons_ne _ _ hdc, countOcc_cons_ne _ _ hdc]
      exact countOcc_new_pyReplace c p' n' hp hn hex t'
termination_by t.length
decreasing_by
  all_goals simp only [List.length_drop, List.length_cons]
  all_goals omega

/-- The two replacements commute when the two patterns never match at
the same position and neither can match at or into an inserted
replacement. -/
theorem pyReplace_comm (c : Char) (p' q' n' : List Char)
    (hp : c ∉ p') (hq : c ∉ q') (hn : c ∉ n')
    (hex : ∀ u : List Char, ¬ (p' <+: u ∧ q' <+: u))
    (hplen : p'.length ≤ n'.length) (hnp : ¬ p' <+: n')
    (hqlen : q'.length ≤ n'.length) (hnq : ¬ q' <+: n') (t : List Char) :
    pyReplace (c :: q') (c :: n') (pyReplace (c :: p') (c :: n') t) =
      pyReplace (c :: p') (c :: n') (pyReplace (c :: q') (c :: n') t) := by
  match t with
  | [] => simp only [pyReplace_nil]
  | d :: t' =>
    by_cases hdc : d = c
    · rw [hdc]
      by_cases hm : p' <+: t'
      · have hq2 : ¬ q' <+: t' := fun hc => hex t' ⟨hm, hc⟩
        rw [pyReplace_head_pos _ hm, List.cons_append]
        have hq3 :
            ¬ q' <+: n' ++ pyReplace (c :: p') (c :: n') (t'.drop p'.length) := by
          rw [List.isPrefix_append_of_length hqlen]
          exact hnq
        rw [pyReplace_head_neg _ hq3, pyReplace_free_append _ hn]
        rw [pyReplace_comm c p' q' n' hp hq hn hex hplen hnp hqlen hnq
          (t'.drop p'.length)]
        rw [pyReplace_head_neg _ hq2]
        have hTq : pyReplace (c :: q') (c :: n') t' =
            p' ++ pyReplace (c :: q') (c :: n') (t'.drop p'.length) := by
          conv_lhs => rw [← pre_append_drop hm]
          exact pyReplace_free_append _ hp _
        rw [hTq, pyReplace_head_pos _ (List.prefix_append _ _), List.drop_left,
          List.cons_append]
      · by_cases hqm : q' <+: t'
        · rw [pyReplace_head_neg _ hm]
          have hTp : pyReplace (c :: p') (c :: n') t' =
              q' ++ pyReplace (c :: p') (c :: n') (t'.drop q'.length) := by
            conv_lhs => rw [← pre_append_drop hqm]
            exact pyReplace_free_append _ hq _
          rw [hTp, pyReplace_head_pos _ (List.prefix_append _ _), List.drop_left,
            List.cons_append]
          rw [pyReplace_comm c p' q' n' hp hq hn hex hplen hnp hqlen hnq
            (t'.drop q'.length)]
          rw [pyReplace_head_pos _ hqm, List.cons_append]
          have hp3 :
              ¬ p' <+: n' ++ pyReplace (c :: q') (c :: n') (t'.drop q'.length) := by
            rw [List.isPrefix_append_of_length hplen]
            exact hnp
          rw [pyReplace_head_neg _ hp3, pyReplace_free_append _ hn]
        · have hq2 : ¬ q' <+: pyReplace (c :: p') (c :: n') t' := by
            rw [pre_pyReplace_iff hq]
            exact hqm
          have hp2 : ¬ p' <+: pyReplace (c :: q') (c :: n') t' := by
            rw [pre_pyReplace_iff hp]
            exact hm
          rw [pyReplace_head_neg _ hm, pyReplace_head_neg _ hq2,
            pyReplace_head_neg _ hqm, pyReplace_head_neg _ hp2]
          rw [pyReplace_comm c p' q' n' hp hq hn hex hplen hnp hqlen hnq t']
    · rw [pyReplace_cons_ne _ _ _ hdc, pyReplace_cons_ne _ _ _ hdc,
        pyReplace_cons_ne _ _ _ hdc, pyReplace_cons_ne _ _ _ hdc]
      rw [pyReplace_comm c p' q' n' hp hq hn hex hplen hnp hqlen hnq t']
termination_by t.length
decreasing_by
  all_goals simp only [List.length_drop, List.length_cons]
  all_goals omega

/-- Locate the leftmost occurrence of a pattern: returns the text
before the occurrence and the text after it, or none when the pattern
does not occur. -/
def firstSplit (old : List Char) (s : List Char) :
    Option (List Char × List Char) :=
  match s with
  | [] => none
  | d :: rest =>
    if old <+: (d :: rest) then some ([], (d :: rest).drop old.length)
    else (firstSplit old rest).map (fun pr => (d :: pr.1, pr.2))

theorem firstSplit_sound (old : List Char) (s : List Char) :
    ∀ pre post, firstSplit old s = some (pre, post) →
      s = pre ++ (old ++ post) := by
  induction s with
  | nil =>
    intro pre post h
    simp [firstSplit] at h
  | cons d rest ih =>
    intro pre post h
    by_cases hp : old <+: d :: rest
    · rw [firstSplit, if_pos hp] at h
      simp only [Option.some.injEq, Prod.mk.injEq] at h
      rw [← h.1, ← h.2, List.nil_append]
      exact (pre_append_drop hp).symm
    · rw [firstSplit, if_neg hp] at h
      match hfs : firstSplit old rest with
      | none => rw [hfs] at h; simp at h
      | some (p1, p2) =>
        rw [hfs] at h
        simp only [Option.map_some', Option.some.injEq, Prod.mk.injEq] at h
        rw [← h.1, ← h.2, List.cons_append]
        rw [ih p1 p2 hfs]

/-- Modelled from the spec: "replace every occurrence of the literal
sequence ... with ...", read as the standard left-to-right literal
substitution: repeatedly rewrite the leftmost occurrence and continue
in the remainder.  This definition follows the spec's wording; the
refinement theorem below identifies it with the code's pyReplace. -/
def specReplace (old new : List Char) (s : List Char) : List Char :=
  if ho : old = [] then s
  else
    match h : firstSplit old s with
    | none => s
    | some (pre, post) => pre ++ new ++ specReplace old new post
termination_by s.length
decreasing_by
  have hs := firstSplit_sound old s pre post h
  have hl : 0 < old.length := List.length_pos.mpr ho
  rw [hs]
  simp only [List.length_append]
  omega

theorem firstSplit_nil (old : List Char) : firstSplit old [] = none := rfl

theorem firstSplit_cons (old : List Char) (d : Char) (rest : List Char) :
    firstSplit old (d :: rest) =
      if old <+: (d :: rest) then some ([], (d :: rest).drop old.length)
      else (firstSplit old rest).map (fun pr => (d :: pr.1, pr.2)) := rfl

theorem specReplace_eq (old new : List Char) (s : List Char)
    (hne : old ≠ []) :
    specReplace old new s =
      match firstSplit old s with
      | none => s
      | some (pre, post) => pre ++ new ++ specReplace old new post := by
  rw [specReplace]
  rw [dif_neg hne]
  split <;> rename_i heq <;> rw [heq]

/-- The code's greedy scan computes exactly the spec's leftmost-first
substitution. -/
theorem pyReplace_eq_specReplace (old new : List Char) (hne : old ≠ [])
    (s : List Char) : pyReplace old new s = specReplace old new s := by
  match s with
  | [] =>
    rw [pyReplace_nil, specReplace_eq _ _ _ hne]
    simp [firstSplit]
  | d :: rest =>
    by_cases hp : old <+: d :: rest
    · rw [pyReplace_cons_pos _ _ _ _ hne hp]
      rw [specReplace_eq _ _ _ hne, firstSplit_cons, if_pos hp]
      rw [pyReplace_eq_specReplace old new hne ((d :: rest).drop old.length)]
      simp
    · rw [pyReplace_cons_neg _ _ _ _ hp]
      conv_rhs => rw [specReplace_eq _ _ _ hne, firstSplit_cons, if_neg hp]
      rw [pyReplace_eq_specReplace old new hne rest]
      rw [specReplace_eq _ _ _ hne]
      match hfs : firstSplit old rest with
      | none => simp
      | some (p1, p2) => simp
termination_by s.length
decreasing_by
  all_goals have hl : 0 < old.length := List.length_pos.mpr hne
  all_goals simp only [List.length_drop, List.length_cons]
  all_goals omega

/-! ### The concrete patterns of fix_encoding.py

Line 8 of the script replaces the corrupted literal
indexOf("â€\"") and line 9 replaces indexOf("—") (with a real
em-dash), both with indexOf("\\u2014") (a literal backslash-u escape,
six characters, written in Python as "\\\\u2014"). -/

/-- The corrupted pattern of line 8 of the script. -/
def patternA : List Char := "indexOf(\"â€\"\")".toList

/-- The em-dash pattern of line 9 of the script. -/
def patternB : List Char := "indexOf(\"—\")".toList

/-- The replacement string used on both lines: the characters
i n d e x O f ( " backslash u 2 0 1 4 " ). -/
def replacementR : List Char := "indexOf(\"\\u2014\")".toList

/-- The tail of patternA after its head character i. -/
def tailA : List Char := "ndexOf(\"â€\"\")".toList

/-- The tail of patternB after its head character i. -/
def tailB : List Char := "ndexOf(\"—\")".toList

/-- The tail of replacementR after its head character i. -/
def tailR : List Char := "ndexOf(\"\\u2014\")".toList

theorem patternA_cons : patternA = 'i' :: tailA := rfl

theorem patternB_cons : patternB = 'i' :: tailB := rfl

theorem replacementR_cons : replacementR = 'i' :: tailR := rfl

theorem i_not_mem_tailA : 'i' ∉ tailA := by decide

theorem i_not_mem_tailB : 'i' ∉ tailB := by decide

theorem i_not_mem_tailR : 'i' ∉ tailR := by decide

theorem tailA_len_le : tailA.length ≤ tailR.length := by decide

theorem tailA_not_pre_tailR : ¬ tailA <+: tailR := by decide

theorem tailB_len_le : tailB.length ≤ tailR.length := by decide

theorem tailB_not_pre_tailR : ¬ tailB <+: tailR := by decide

/-- The two patterns can never match at the same position. -/
theorem hexAB : ∀ u : List Char, ¬ (tailA <+: u ∧ tailB <+: u) := by
  intro u h
  have hb := eq_take_of_two_pre h.1 h.2 (by decide)
  exact absurd hb (by decide)

theorem hexBA : ∀ u : List Char, ¬ (tailB <+: u ∧ tailA <+: u) :=
  fun u h => hexAB u ⟨h.2, h.1⟩

/-- patternA and the replacement can never match at the same position. -/
theorem hexAR : ∀ u : List Char, ¬ (tailA <+: u ∧ tailR <+: u) := by
  intro u h
  have hb := eq_take_of_two_pre h.2 h.1 (by decide)
  exact absurd hb (by decide)

/-- patternB and the replacement can never match at the same position. -/
theorem hexBR : ∀ u : List Char, ¬ (tailB <+: u ∧ tailR <+: u) := by
  intro u h
  have hb := eq_take_of_two_pre h.2 h.1 (by decide)
  exact absurd hb (by decide)

/-- The in-memory transformation of the script: line 8 (substitution
A) followed by line 9 (substitution B). -/
def fixContent (content : List Char) : List Char :=
  pyReplace patternB replacementR (pyReplace patternA replacementR content)

/-- The hardcoded path used by both open calls of the script. -/
def targetPath : String := "src/main/java/converter/Main.java"

/-- The confirmation line printed on line 14 of the script. -/
def confirmMessage : String := "Fixed encoding issues in Main.java"

/-- One run of the script over a store mapping paths to optional file
contents.  Reading the missing target propagates the file-access error
(modelled as none) before any write happens; otherwise the target is
overwritten with the transformed content and one line is printed. -/
def runFixEncoding (fs : String → Option (List Char)) :
    Option ((String → Option (List Char)) × List String) :=
  match fs targetPath with
  | none => none
  | some content =>
      some (Function.update fs targetPath (some (fixContent content)),
        [confirmMessage])

/-- After a run, no occurrence of patternA remains in the content. -/
theorem fixContent_no_patternA (s : List Char) :
    countOcc patternA (fixContent s) = 0 := by
  show countOcc ('i' :: tailA)
      (pyReplace ('i' :: tailB) ('i' :: tailR)
        (pyReplace ('i' :: tailA) ('i' :: tailR) s)) = 0
  rw [countOcc_other_pyReplace 'i' tailB tailA tailR i_not_mem_tailB
    i_not_mem_tailA i_not_mem_tailR hexBA tailA_len_le tailA_not_pre_tailR
    (pyReplace ('i' :: tailA) ('i' :: tailR) s)]
  exact countOcc_self_pyReplace 'i' tailA tailR i_not_mem_tailA
    i_not_mem_tailR tailA_len_le tailA_not_pre_tailR s

/-- After a run, no occurrence of patternB remains in the content. -/
theorem fixContent_no_patternB (s : List Char) :
    countOcc patternB (fixContent s) = 0 := by
  show countOcc ('i' :: tailB)
      (pyReplace ('i' :: tailB) ('i' :: tailR)
        (pyReplace ('i' :: tailA) ('i' :: tailR) s)) = 0
  exact countOcc_self_pyReplace 'i' tailB tailR i_not_mem_tailB
    i_not_mem_tailR tailB_len_le tailB_not_pre_tailR
    (pyReplace ('i' :: tailA) ('i' :: tailR) s)

/-- Occurrence bookkeeping for the replacement string: the output
carries one occurrence per original occurrence of patternA and of
patternB, on top of those already present in the input. -/
theorem fixContent_count_replacement (s : List Char) :
    countOcc replacementR (fixContent s) =
      countOcc replacementR s + countOcc patternA s + countOcc patternB s := by
  show countOcc ('i' :: tailR)
      (pyReplace ('i' :: tailB) ('i' :: tailR)
        (pyReplace ('i' :: tailA) ('i' :: tailR) s)) =
    countOcc ('i' :: tailR) s + countOcc ('i' :: tailA) s +
      countOcc ('i' :: tailB) s
  rw [countOcc_new_pyReplace 'i' tailB tailR i_not_mem_tailB i_not_mem_tailR
    hexBR (pyReplace ('i' :: tailA) ('i' :: tailR) s)]
  rw [countOcc_new_pyReplace 'i' tailA tailR i_not_mem_tailA i_not_mem_tailR
    hexAR s]
  rw [countOcc_other_pyReplace 'i' tailA tailB tailR i_not_mem_tailA
    i_not_mem_tailB i_not_mem_tailR hexAB tailB_len_le tailB_not_pre_tailR s]

/-- A content without occurrences of either pattern is left unchanged
by the transformation. -/
theorem fixContent_of_no_occ (s : List Char)
    (ha : countOcc patternA s = 0) (hb : countOcc patternB s = 0) :
    fixContent s = s := by
  rw [fixContent, pyReplace_of_countOcc_zero _ _ _ ha,
    pyReplace_of_countOcc_zero _ _ _ hb]

theorem patternA_length : patternA.length = 14 := rfl

theorem patternB_length : patternB.length = 12 := rfl

theorem patternA_ne_nil : patternA ≠ [] := by decide

theorem patternB_ne_nil : patternB ≠ [] := by decide

/-- A sample store holding an empty target file, used to exhibit
successful runs. -/
def sampleStore : String → Option (List Char) :=
  fun p => if p = targetPath then some [] else none

/-! ### Claim theorems -/

/-- C1: the content written back by a successful run equals the result
of first applying substitution A (patternA to the replacement) and then
substitution B (patternB to the same replacement) to the original
content, each substitution being the spec's plain left-to-right literal
string substitution (specReplace). -/
theorem c1_run_writes_spec_substitution
    (fs fs2 : String → Option (List Char)) (out : List String)
    (c : List Char)
    (hread : fs targetPath = some c)
    (hrun : runFixEncoding fs = some (fs2, out)) :
    fs2 targetPath =
      some (specReplace patternB replacementR
        (specReplace patternA replacementR c)) := by
  unfold runFixEncoding at hrun
  rw [hread] at hrun
  simp only [Option.some.injEq, Prod.mk.injEq] at hrun
  rw [← hrun.1, Function.update_same]
  rw [fixContent, pyReplace_eq_specReplace _ _ patternA_ne_nil c,
    pyReplace_eq_specReplace _ _ patternB_ne_nil]

theorem c1_witness :
    Function.update sampleStore targetPath (some (fixContent [])) targetPath =
      some (specReplace patternB replacementR
        (specReplace patternA replacementR [])) :=
  c1_run_writes_spec_substitution sampleStore
    (Function.update sampleStore targetPath (some (fixContent [])))
    [confirmMessage] [] (by simp [sampleStore])
    (by simp [runFixEncoding, sampleStore])

/-- C2 counterexample: the claim fails on the input consisting of the
single replacement string indexOf("\\u2014"): it has zero occurrences
of patternA and of patternB (N1 = N2 = 0), yet the output content
contains one occurrence of the replacement string, not N1 + N2 = 0. -/
theorem c2_counterexample :
    countOcc patternA replacementR = 0 ∧
    countOcc patternB replacementR = 0 ∧
    countOcc replacementR (fixContent replacementR) = 1 := by
  have ha : countOcc patternA replacementR = 0 := by
    simp +decide [countOcc_cons, countOcc_nil, replacementR]
  have hb : countOcc patternB replacementR = 0 := by
    simp +decide [countOcc_cons, countOcc_nil, replacementR]
  refine ⟨ha, hb, ?_⟩
  rw [fixContent_of_no_occ replacementR ha hb]
  simp +decide [countOcc_cons, countOcc_nil, replacementR]

/-- C2 amended: for every input content, the output contains exactly
N0 + N1 + N2 occurrences of the replacement string, where N0, N1 and N2
count the occurrences in the input of the replacement string itself, of
patternA and of patternB; and zero occurrences of either original
pattern remain. -/
theorem c2_amended_occurrence_accounting (s : List Char) :
    countOcc replacementR (fixContent s) =
      countOcc replacementR s + countOcc patternA s + countOcc patternB s ∧
    countOcc patternA (fixContent s) = 0 ∧
    countOcc patternB (fixContent s) = 0 :=
  ⟨fixContent_count_replacement s, fixContent_no_patternA s,
    fixContent_no_patternB s⟩

/-- C3: an input content with zero occurrences of patternA and zero
occurrences of patternB is written back exactly as it was. -/
theorem c3_no_pattern_input_unchanged (s : List Char)
    (ha : countOcc patternA s = 0) (hb : countOcc patternB s = 0) :
    fixContent s = s :=
  fixContent_of_no_occ s ha hb

theorem c3_witness :
    countOcc patternA "System.out.println(\"hello\");".toList = 0 ∧
    countOcc patternB "System.out.println(\"hello\");".toList = 0 ∧
    fixContent "System.out.println(\"hello\");".toList =
      "System.out.println(\"hello\");".toList :=
  ⟨by simp +decide [countOcc_cons, countOcc_nil],
   by simp +decide [countOcc_cons, countOcc_nil],
   c3_no_pattern_input_unchanged _
     (by simp +decide [countOcc_cons, countOcc_nil])
     (by simp +decide [countOcc_cons, countOcc_nil])⟩

/-- C4: the two-substitution transformation is idempotent; a second run
of the patcher maps the already-patched content to itself. -/
theorem c4_idempotent (s : List Char) :
    fixContent (fixContent s) = fixContent s :=
  fixContent_of_no_occ _ (fixContent_no_patternA s) (fixContent_no_patternB s)

/-- C5: the spec's two concrete scenario lines transform exactly as
stated, the replacement being the six-character literal escape. -/
theorem c5_concrete_scenarios :
    fixContent "if (line.indexOf(\"â€\"\")  >= 0)".toList =
      "if (line.indexOf(\"\\u2014\")  >= 0)".toList ∧
    fixContent "int idx = text.indexOf(\"—\");".toList =
      "int idx = text.indexOf(\"\\u2014\");".toList := by
  constructor <;>
    simp +decide [fixContent, pyReplace_cons, pyReplace_nil,
      patternA_length, patternB_length, replacementR]

/-- C6: when the target path holds no file, the run fails with the
read error and produces no resulting store at all: nothing is written
anywhere, because the failing read guards the write. -/
theorem c6_missing_target_no_write (fs : String → Option (List Char))
    (h : fs targetPath = none) : runFixEncoding fs = none := by
  unfold runFixEncoding
  rw [h]

theorem c6_witness : runFixEncoding (fun _ => none) = none :=
  c6_missing_target_no_write (fun _ => none) rfl

/-- C7: every successful run prints exactly one line, the fixed
confirmation string "Fixed encoding issues in Main.java". -/
theorem c7_single_confirmation_line (fs : String → Option (List Char))
    (r : (String → Option (List Char)) × List String)
    (h : runFixEncoding fs = some r) : r.2 = [confirmMessage] := by
  unfold runFixEncoding at h
  match hv : fs targetPath with
  | none =>
    rw [hv] at h
    simp at h
  | some content =>
    rw [hv] at h
    simp only [Option.some.injEq] at h
    rw [← h]

theorem c7_witness :
    ((Function.update sampleStore targetPath (some (fixContent [])),
        [confirmMessage]) :
      (String → Option (List Char)) × List String).2 = [confirmMessage] :=
  c7_single_confirmation_line sampleStore _
    (by simp [runFixEncoding, sampleStore])

/-- C8: a run touches only the single hardcoded path: the resulting
store agrees with the initial store on every other path. -/
theorem c8_frame (fs : String → Option (List Char))
    (r : (String → Option (List Char)) × List String)
    (h : runFixEncoding fs = some r) (p : String) (hp : p ≠ targetPath) :
    r.1 p = fs p := by
  unfold runFixEncoding at h
  match hv : fs targetPath with
  | none =>
    rw [hv] at h
    simp at h
  | some content =>
    rw [hv] at h
    simp only [Option.some.injEq] at h
    rw [← h]
    exact Function.update_noteq hp _ _

theorem c8_witness :
    ((Function.update sampleStore targetPath (some (fixContent [])),
        [confirmMessage]) :
      (String → Option (List Char)) × List String).1 "other" =
      sampleStore "other" :=
  c8_frame sampleStore _ (by simp [runFixEncoding, sampleStore]) "other"
    (by decide)

/-- C9: the two substitutions commute: applying substitution B after
substitution A yields the same content as applying them in the
opposite order. -/
theorem c9_substitutions_commute (s : List Char) :
    pyReplace patternB replacementR (pyReplace patternA replacementR s) =
      pyReplace patternA replacementR (pyReplace patternB replacementR s) := by
  show pyReplace ('i' :: tailB) ('i' :: tailR)
      (pyReplace ('i' :: tailA) ('i' :: tailR) s) =
    pyReplace ('i' :: tailA) ('i' :: tailR)
      (pyReplace ('i' :: tailB) ('i' :: tailR) s)
  exact pyReplace_comm 'i' tailA tailB tailR i_not_mem_tailA i_not_mem_tailB
    i_not_mem_tailR hexAB tailA_len_le tailA_not_pre_tailR tailB_len_le
    tailB_not_pre_tailR s

/-- C10: the run is deterministic and depends only on the initial
content of the target file: two stores holding the same target content
produce the same final target content and the same printed output. -/
theorem c10_deterministic (fs1 fs2 : String → Option (List Char))
    (h : fs1 targetPath = fs2 targetPath) :
    Option.map (fun r => (r.1 targetPath, r.2)) (runFixEncoding fs1) =
      Option.map (fun r => (r.1 targetPath, r.2)) (runFixEncoding fs2) := by
  unfold runFixEncoding
  rw [h]
  match hv : fs2 targetPath with
  | none => simp
  | some content => simp [Function.update_same]

theorem c10_witness :
    Option.map (fun r => (r.1 targetPath, r.2))
        (runFixEncoding sampleStore) =
      Option.map (fun r => (r.1 targetPath, r.2))
        (runFixEncoding (fun _ => some [])) :=
  c10_deterministic sampleStore (fun _ => some []) (by simp [sampleStore])

end FixEncoding
